import Mathlib

/-!
Verification of the MIRTK Common module fragment: the configurable-object
parameter-list helpers (`Object.h`) and the categorized energy-measure
enumeration with its bidirectional string conversion (`EnergyMeasure.h`).

Strings are Lean `String`s; a C++ `ParameterList` (an `Array<Pair<string,
string>>`) is a `List (String × String)`; iterators into a list are embedded
as positions (`Nat` indices), with the list's length playing the role of the
`end()` iterator. The `EnergyMeasure` enumeration is embedded by its ordinal
value (a `Nat`), which is what the C++ fallback scan arithmetic operates on.
-/

namespace mirtk

/-- Ordered list of parameter name/value pairs (`ParameterList` in `Object.h`). -/
abbrev ParameterList := List (String × String)

/-- Embeds `Find(params, name)`: position of the first entry whose name equals `name`;
equals `params.length` (the `end()` iterator) when no entry matches. -/
def Find (params : ParameterList) (name : String) : Nat :=
  match params with
  | [] => 0
  | e :: rest => if e.1 = name then 0 else Find rest name + 1

/-- Embeds `Contains(params, name)`: whether `Find` did not return the end position. -/
def Contains (params : ParameterList) (name : String) : Bool :=
  Find params name != params.length

/-- Embeds `Get(params, name)`: value of the first matching entry, or `""` if absent. -/
def Get (params : ParameterList) (name : String) : String :=
  let pos := Find params name
  if pos = params.length then "" else (params.getD pos ("", "")).2

/-- The string specialization of `Insert(params, name, value)`: update the
first matching entry's value in place, or append a new entry at the end. -/
def Insert (params : ParameterList) (name value : String) : ParameterList :=
  let pos := Find params name
  if pos = params.length then params ++ [(name, value)]
  else params.set pos ((params.getD pos ("", "")).1, value)

/-- The generic template `Insert<T>(params, name, value)`: formats the value
to a string with the toolkit's `ToString` (passed here as `toStr`, since the
generic formatter lives outside this fragment) before storing it, with the
same update-or-append rule. -/
def InsertT {T : Type} (toStr : T → String) (params : ParameterList)
    (name : String) (value : T) : ParameterList :=
  let pos := Find params name
  if pos = params.length then params ++ [(name, toStr value)]
  else params.set pos ((params.getD pos ("", "")).1, toStr value)

/-- Embeds `::tolower` in the default C locale, restricted to the character values a
Lean `Char` can carry: maps `'A'..'Z'` to `'a'..'z'`, all else unchanged. -/
def ctolower (c : Char) : Char :=
  if 65 ≤ c.toNat ∧ c.toNat ≤ 90 then Char.ofNat (c.toNat + 32) else c

/-- The in-place `name[0] = ::tolower(name[0])` of the prefixed merge, as a
total function: `none` embeds the out-of-bounds character access that the
C++ code performs when the source name is the empty string. -/
def LowerFirst (s : String) : Option String :=
  match s.data with
  | [] => none
  | c :: cs => some (String.mk (ctolower c :: cs))

/-- The `ParameterList`-merging overload `Insert(params, other, prefix)`:
folds the entries of `other` into `params` in order using the string `Insert`.
With a prefix, each key becomes `prefix ++ " " ++ name` with the name's first
character lowercased; the result is `none` exactly when that first-character
access is out of bounds. Without a prefix, names are merged verbatim. -/
def InsertAll (params other : ParameterList) (pfx : Option String) :
    Option ParameterList :=
  match pfx with
  | some p =>
    other.foldlM
      (fun acc e =>
        (LowerFirst e.1).map (fun nm => Insert acc (p ++ " " ++ nm) e.2))
      params
  | none =>
    some (other.foldl (fun acc e => Insert acc e.1 e.2) params)

/-- Embeds `Remove(params, name)`: erase the first matching entry if there is one. -/
def Remove (params : ParameterList) (name : String) : ParameterList :=
  let pos := Find params name
  if pos ≠ params.length then params.eraseIdx pos else params

/-- The root `Object::Set`: recognizes no parameter, always reports failure. -/
def ObjectSet (_name _value : String) : Bool := false

/-- Embeds `Object::Parameter(const ParameterList &)`: calls the virtual `Set` once
per entry, in list order, threading the object state and discarding each
call's success flag. The virtual `Set` is passed as `set`, returning the
success flag together with the updated object state. -/
def ParameterApply {σ : Type} (set : σ → String → String → Bool × σ) :
    σ → ParameterList → σ
  | s, [] => s
  | s, e :: rest => ParameterApply set (set s e.1 e.2).2 rest

/-! The `EnergyMeasure` enumeration, embedded by ordinal value. -/

def EM_Unknown : Nat := 0
def SIM_Begin : Nat := 1
def EM_JE : Nat := 2
def EM_CC : Nat := 3
def EM_MI : Nat := 4
def EM_NMI : Nat := 5
def EM_SSD : Nat := 6
def EM_CR_XY : Nat := 7
def EM_CR_YX : Nat := 8
def EM_LC : Nat := 9
def EM_K : Nat := 10
def EM_ML : Nat := 11
def EM_NGF_COS : Nat := 12
def EM_LNCC : Nat := 13
def SIM_End : Nat := 14
def PDM_Begin : Nat := 15
def EM_FRE : Nat := 16
def EM_CorrespondenceDistance : Nat := 17
def EM_CurrentsDistance : Nat := 18
def EM_VarifoldDistance : Nat := 19
def PDM_End : Nat := 20
def EFT_Begin : Nat := 21
def EM_BalloonForce : Nat := 22
def EM_ImageEdgeForce : Nat := 23
def EM_ImplicitSurfaceDistance : Nat := 24
def EM_ImplicitSurfaceSpringForce : Nat := 25
def EFT_End : Nat := 26
def IFT_Begin : Nat := 27
def EM_MetricDistortion : Nat := 28
def EM_Stretching : Nat := 29
def EM_Curvature : Nat := 30
def EM_QuadraticCurvature : Nat := 31
def EM_NonSelfIntersection : Nat := 32
def EM_RepulsiveForce : Nat := 33
def EM_InflationForce : Nat := 34
def EM_SpringForce : Nat := 35
def IFT_End : Nat := 36
def CM_Begin : Nat := 37
def EM_VolumePreservation : Nat := 38
def EM_TopologyPreservation : Nat := 39
def EM_Sparsity : Nat := 40
def EM_BendingEnergy : Nat := 41
def EM_L0Norm : Nat := 42
def EM_L1Norm : Nat := 43
def EM_L2Norm : Nat := 44
def EM_SqLogDetJac : Nat := 45
def EM_MinDetJac : Nat := 46
def CM_End : Nat := 47
def EM_Last : Nat := 48

/-- A value is selectable when it lies strictly between a category's begin
and end sentinels (the spec's invariant on valid algorithm selections). -/
def Selectable (v : Nat) : Prop :=
  (SIM_Begin < v ∧ v < SIM_End) ∨ (PDM_Begin < v ∧ v < PDM_End) ∨
  (EFT_Begin < v ∧ v < EFT_End) ∨ (IFT_Begin < v ∧ v < IFT_End) ∨
  (CM_Begin < v ∧ v < CM_End)

instance (v : Nat) : Decidable (Selectable v) := by
  unfold Selectable; infer_instance

/-- Embeds `ToString(EnergyMeasure)`: canonical short name of each listed value; any
other value (the sentinels and `EM_Unknown` included) maps to `"Unknown"`.
The toolkit's width/fill wrapper from `String.h` is applied with its default
arguments here, where it is the identity on the chosen string. -/
def ToString (value : Nat) : String :=
  if value = EM_JE then "JE"
  else if value = EM_CC then "CC"
  else if value = EM_MI then "MI"
  else if value = EM_NMI then "NMI"
  else if value = EM_SSD then "SSD"
  else if value = EM_CR_XY then "CR_XY"
  else if value = EM_CR_YX then "CR_YX"
  else if value = EM_LC then "LC"
  else if value = EM_K then "K"
  else if value = EM_ML then "ML"
  else if value = EM_NGF_COS then "NGF_COS"
  else if value = EM_LNCC then "LNCC"
  else if value = EM_FRE then "FRE"
  else if value = EM_CorrespondenceDistance then "PCD"
  else if value = EM_CurrentsDistance then "CurrentsDistance"
  else if value = EM_VarifoldDistance then "VarifoldDistance"
  else if value = EM_BalloonForce then "BalloonForce"
  else if value = EM_ImageEdgeForce then "ImageEdgeForce"
  else if value = EM_ImplicitSurfaceDistance then "ImplicitSurfaceDistance"
  else if value = EM_ImplicitSurfaceSpringForce then "ImplicitSurfaceSpringForce"
  else if value = EM_MetricDistortion then "MetricDistortion"
  else if value = EM_Stretching then "Stretching"
  else if value = EM_Curvature then "Curvature"
  else if value = EM_QuadraticCurvature then "QuadraticCurvature"
  else if value = EM_NonSelfIntersection then "NSI"
  else if value = EM_RepulsiveForce then "Repulsion"
  else if value = EM_InflationForce then "Inflation"
  else if value = EM_SpringForce then "Spring"
  else if value = EM_BendingEnergy then "BE"
  else if value = EM_VolumePreservation then "VP"
  else if value = EM_TopologyPreservation then "TP"
  else if value = EM_Sparsity then "Sparsity"
  else if value = EM_L0Norm then "L0"
  else if value = EM_L1Norm then "L1"
  else if value = EM_L2Norm then "L2"
  else if value = EM_SqLogDetJac then "SqLogDetJac"
  else if value = EM_MinDetJac then "MinDetJac"
  else "Unknown"

/-- Alternative names for image (dis-)similarity measures. -/
def SimAlias (str : String) (value : Nat) : Nat :=
  if value = EM_Unknown then
    if str = "NCC" then EM_LNCC
    else if str = "LCC" then EM_LNCC
    else value
  else value

/-- Alternative names for point set distance measures. -/
def PdmAlias (str : String) (value : Nat) : Nat :=
  if value = EM_Unknown then
    if str = "Fiducial Registration Error" ∨ str = "Fiducial registration error" ∨
       str = "Fiducial Error" ∨ str = "Fiducial error" ∨
       str = "Landmark Registration Error" ∨ str = "Landmark registration error" ∨
       str = "Landmark Error" ∨ str = "Landmark error" then EM_FRE
    else if str = "Point Correspondence Distance" ∨
            str = "Point correspondence distance" ∨
            str = "Correspondence Distance" ∨
            str = "Correspondence distance" then EM_CorrespondenceDistance
    else if str = "Currents distance" ∨ str = "Currents Distance" then
      EM_CurrentsDistance
    else if str = "Varifold distance" ∨ str = "Varifold Distance" then
      EM_VarifoldDistance
    else value
  else value

/-- Alternative names for external point set forces. -/
def EftAlias (str : String) (value : Nat) : Nat :=
  if value = EM_Unknown then
    if str = "EdgeForce" then EM_ImageEdgeForce else value
  else value

/-- Alternative names for internal point set forces. -/
def IftAlias (str : String) (value : Nat) : Nat :=
  if value = EM_Unknown then
    if str = "EdgeLength" then EM_Stretching
    else if str = "MetricDistortion" then EM_MetricDistortion
    else if str = "Bending" then EM_Curvature
    else if str = "SurfaceBending" then EM_Curvature
    else if str = "SurfaceCurvature" then EM_Curvature
    else if str = "RepulsiveForce" then EM_RepulsiveForce
    else if str = "NonSelfIntersection" then EM_NonSelfIntersection
    else if str = "InflationForce" then EM_InflationForce
    else if str = "SurfaceInflation" then EM_InflationForce
    else value
  else value

/-- Alternative names for transformation regularization terms. -/
def CmAlias (str : String) (value : Nat) : Nat :=
  if value = EM_Unknown then
    if str = "JAC" then EM_SqLogDetJac
    else if str = "MinJac" then EM_MinDetJac
    else value
  else value

/-- The fallback `while` loop of `FromString`: starting at ordinal `v` and
decrementing, return the first candidate whose `ToString` equals `str`, or
`EM_Unknown` (= 0) when the loop reaches the unknown sentinel. -/
def ScanDefaultNames (str : String) : Nat → Nat
  | 0 => EM_Unknown
  | v + 1 => if ToString (v + 1) = str then v + 1 else ScanDefaultNames str v

/-- Embeds `FromString(str)`: the category alias tables in declaration order, then
the reverse scan over default names starting at `EM_Last - 1`; returns the
resolved ordinal together with the success flag `value != EM_Unknown`. -/
def FromString (str : String) : Nat × Bool :=
  let value := EM_Unknown
  let value := SimAlias str value
  let value := PdmAlias str value
  let value := EftAlias str value
  let value := IftAlias str value
  let value := CmAlias str value
  let value := if value = EM_Unknown then ScanDefaultNames str (EM_Last - 1) else value
  (value, value != EM_Unknown)


/-! Auxiliary lemmas about `Find` and the cons-step behaviour of the
parameter-list operations. -/

theorem Find_cons (e : String × String) (L : ParameterList) (n : String) :
    Find (e :: L) n = if e.1 = n then 0 else Find L n + 1 := rfl

theorem Find_le (L : ParameterList) (n : String) : Find L n ≤ L.length := by
  induction L with
  | nil => simp [Find]
  | cons e L ih =>
    simp only [Find, List.length_cons]
    split
    · omega
    · omega

theorem Find_min (L : ParameterList) (n : String) (i : Nat) (h : i < Find L n) :
    (L.getD i ("", "")).1 ≠ n := by
  induction L generalizing i with
  | nil => simp [Find] at h
  | cons e L ih =>
    rw [Find_cons] at h
    split at h
    · omega
    · cases i with
      | zero => simpa using ‹¬ e.1 = n›
      | succ i => simpa using ih i (by omega)

theorem Contains_eq_true_iff (L : ParameterList) (n : String) :
    Contains L n = true ↔ Find L n ≠ L.length := bne_iff_ne ..

theorem Contains_eq_false_iff (L : ParameterList) (n : String) :
    Contains L n = false ↔ Find L n = L.length := by
  rw [← Bool.not_eq_true, not_iff_comm, Contains_eq_true_iff]

theorem InsertT_cons {T : Type} (toStr : T → String) (e : String × String)
    (L : ParameterList) (n : String) (v : T) :
    InsertT toStr (e :: L) n v =
      if e.1 = n then (e.1, toStr v) :: L else e :: InsertT toStr L n v := by
  by_cases h : e.1 = n
  · simp [InsertT, Find, h]
  · have hle := Find_le L n
    by_cases h2 : Find L n = L.length
    · simp [InsertT, Find, h, h2]
    · simp [InsertT, Find, h, h2]

theorem Insert_cons (e : String × String) (L : ParameterList) (n v : String) :
    Insert (e :: L) n v = if e.1 = n then (e.1, v) :: L else e :: Insert L n v :=
  InsertT_cons (fun s => s) e L n v

theorem Get_cons (e : String × String) (L : ParameterList) (n : String) :
    Get (e :: L) n = if e.1 = n then e.2 else Get L n := by
  by_cases h : e.1 = n
  · simp [Get, Find, h]
  · have hle := Find_le L n
    by_cases h2 : Find L n = L.length
    · simp [Get, Find, h, h2]
    · simp [Get, Find, h, h2]

theorem Remove_cons (e : String × String) (L : ParameterList) (n : String) :
    Remove (e :: L) n = if e.1 = n then L else e :: Remove L n := by
  by_cases h : e.1 = n
  · simp [Remove, Find, h]
  · have hle := Find_le L n
    by_cases h2 : Find L n = L.length
    · simp [Remove, Find, h, h2]
    · simp [Remove, Find, h, h2]

theorem Contains_cons_pos (e : String × String) (L : ParameterList)
    (n : String) (h : e.1 = n) : Contains (e :: L) n = true := by
  rw [Contains_eq_true_iff, Find_cons, if_pos h, List.length_cons]
  omega

theorem Contains_cons_eq (e : String × String) (L : ParameterList)
    (n : String) (h : e.1 ≠ n) : Contains (e :: L) n = Contains L n := by
  by_cases hcL : Contains L n = true
  · rw [hcL, Contains_eq_true_iff, Find_cons, if_neg h, List.length_cons]
    rw [Contains_eq_true_iff] at hcL
    omega
  · rw [Bool.not_eq_true] at hcL
    rw [hcL, Contains_eq_false_iff, Find_cons, if_neg h, List.length_cons]
    rw [Contains_eq_false_iff] at hcL
    omega

theorem Find_InsertT {T : Type} (toStr : T → String) (L : ParameterList)
    (n : String) (v : T) : Find (InsertT toStr L n v) n = Find L n := by
  induction L with
  | nil => simp [InsertT, Find]
  | cons e L ih =>
    rw [InsertT_cons]
    by_cases h : e.1 = n
    · simp [Find_cons, h]
    · simp [Find_cons, h, ih]

theorem length_InsertT {T : Type} (toStr : T → String) (L : ParameterList)
    (n : String) (v : T) :
    (InsertT toStr L n v).length =
      if Contains L n = true then L.length else L.length + 1 := by
  induction L with
  | nil => simp [InsertT, Contains, Find]
  | cons e L ih =>
    rw [InsertT_cons]
    by_cases h : e.1 = n
    · simp [h, Contains_cons_pos e L n h]
    · rw [if_neg h, List.length_cons, ih, Contains_cons_eq e L n h]
      by_cases hcL : Contains L n = true <;> simp [hcL]

/-- C4: `Insert` has update-or-append semantics. When the name is absent the
new entry is appended at the end; when it is present the value of the first
matching entry is overwritten in place. In both cases the list afterwards
contains the name, `Get` returns the formatted value, the entry's position is
unchanged, and the length grows only in the append case. -/
theorem insert_update_or_append {T : Type} (toStr : T → String)
    (L : ParameterList) (n : String) (v : T) :
    InsertT toStr L n v =
      (if Contains L n = true then L.set (Find L n) (n, toStr v)
       else L ++ [(n, toStr v)])
    ∧ Contains (InsertT toStr L n v) n = true
    ∧ Get (InsertT toStr L n v) n = toStr v
    ∧ Find (InsertT toStr L n v) n = Find L n
    ∧ (InsertT toStr L n v).length =
        (if Contains L n = true then L.length else L.length + 1) := by
  refine ⟨?_, ?_, ?_, Find_InsertT toStr L n v, length_InsertT toStr L n v⟩
  · induction L with
    | nil => simp [InsertT, Contains, Find]
    | cons e L ih =>
      rw [InsertT_cons]
      by_cases h : e.1 = n
      · rw [if_pos h, Contains_cons_pos e L n h, if_pos rfl, Find_cons,
          if_pos h, List.set_cons_zero, h]
      · rw [if_neg h, Contains_cons_eq e L n h, Find_cons, if_neg h, ih]
        by_cases hcL : Contains L n = true
        · simp [hcL, List.set_cons_succ]
        · simp [hcL]
  · rw [Contains_eq_true_iff, Find_InsertT, length_InsertT]
    by_cases hcL : Contains L n = true
    · rw [if_pos hcL]
      rw [Contains_eq_true_iff] at hcL
      exact hcL
    · have := Find_le L n
      rw [if_neg hcL]
      omega
  · induction L with
    | nil => simp [InsertT, Get, Find]
    | cons e L ih =>
      rw [InsertT_cons]
      by_cases h : e.1 = n
      · rw [if_pos h, Get_cons]
        simp [h]
      · rw [if_neg h, Get_cons, if_neg h, ih]

/-- Concrete instantiation of the update-or-append specification. -/
theorem insert_update_or_append_witness :
    Get (InsertT (fun k : Nat => toString k) [("a", "1")] "a" 7) "a" = "7" :=
  (insert_update_or_append (fun k : Nat => toString k) [("a", "1")] "a" 7).2.2.1

/-- C7: the string-valued `Insert` overload and the generic-value overload
(which formats the value to a string before storing it) produce identical
lists for every formatter, list, name and value: they follow the same
update-or-append rule and store the same string. -/
theorem insert_overloads_agree {T : Type} (toStr : T → String)
    (params : ParameterList) (name : String) (value : T) :
    InsertT toStr params name value = Insert params name (toStr value) := rfl

/-- C8: `Remove` deletes the first matching entry when one exists — and no
entry before that position carries the name — and is the identity when the
name is absent. -/
theorem remove_first_or_noop (L : ParameterList) (n : String) :
    Remove L n = (if Contains L n = true then L.eraseIdx (Find L n) else L)
    ∧ (Contains L n = false → Remove L n = L)
    ∧ (∀ i, i < Find L n → (L.getD i ("", "")).1 ≠ n) := by
  refine ⟨?_, ?_, fun i hi => Find_min L n i hi⟩
  · by_cases hc : Contains L n = true
    · rw [if_pos hc]
      rw [Contains_eq_true_iff] at hc
      simp only [Remove]
      rw [if_pos hc]
    · rw [if_neg hc]
      rw [Bool.not_eq_true, Contains_eq_false_iff] at hc
      simp only [Remove]
      simp [hc]
  · intro hc
    rw [Contains_eq_false_iff] at hc
    simp only [Remove]
    simp [hc]

/-- Concrete instantiation of the remove specification. -/
theorem remove_first_or_noop_witness :
    Remove [("a", "1")] "b" = [("a", "1")] ∧
    (([("a", "1")] : ParameterList).getD 0 ("", "")).1 ≠ "b" :=
  ⟨(remove_first_or_noop [("a", "1")] "b").2.1 (by decide),
   (remove_first_or_noop [("a", "1")] "b").2.2 0 (by decide)⟩

/-- C10: with duplicate names present, every free function acts only on the
first occurrence: `Find` returns its position, `Get` its value, `Insert`
overwrites only its value, and `Remove` erases only it; the later duplicate
keeps its value and relative position in every case. -/
theorem first_occurrence_only (p q : ParameterList) (n v1 v2 w : String)
    (h : ∀ e ∈ p, e.1 ≠ n) :
    Find (p ++ (n, v1) :: (q ++ [(n, v2)])) n = p.length
    ∧ Get (p ++ (n, v1) :: (q ++ [(n, v2)])) n = v1
    ∧ Insert (p ++ (n, v1) :: (q ++ [(n, v2)])) n w = p ++ (n, w) :: (q ++ [(n, v2)])
    ∧ Remove (p ++ (n, v1) :: (q ++ [(n, v2)])) n = p ++ (q ++ [(n, v2)]) := by
  revert h
  induction p with
  | nil =>
    intro h
    refine ⟨?_, ?_, ?_, ?_⟩
    · simp [Find_cons]
    · simp [Get_cons]
    · simp [Insert_cons]
    · simp [Remove_cons]
  | cons e p ih =>
    intro h
    have he : e.1 ≠ n := h e (List.mem_cons_self e p)
    have hp : ∀ x ∈ p, x.1 ≠ n := fun x hx => h x (List.mem_cons_of_mem e hx)
    obtain ⟨ihF, ihG, ihI, ihR⟩ := ih hp
    refine ⟨?_, ?_, ?_, ?_⟩
    · simp [Find_cons, he, ihF]
    · simp [Get_cons, he, ihG]
    · simp [Insert_cons, he, ihI]
    · simp [Remove_cons, he, ihR]

/-- Concrete instantiation of the first-occurrence specification. -/
theorem first_occurrence_only_witness :
    Insert [("x", "0"), ("a", "1"), ("a", "2")] "a" "9"
      = [("x", "0"), ("a", "9"), ("a", "2")] ∧
    Remove [("x", "0"), ("a", "1"), ("a", "2")] "a" = [("x", "0"), ("a", "2")] :=
  ⟨(first_occurrence_only [("x", "0")] [] "a" "1" "2" "9" (by decide)).2.2.1,
   (first_occurrence_only [("x", "0")] [] "a" "1" "2" "9" (by decide)).2.2.2⟩

theorem ParameterApply_foldl {σ : Type} (set : σ → String → String → Bool × σ)
    (s : σ) (params : ParameterList) :
    ParameterApply set s params =
      params.foldl (fun st e => (set st e.1 e.2).2) s := by
  induction params generalizing s with
  | nil => rfl
  | cons e rest ih => simp [ParameterApply, List.foldl_cons, ih]

theorem ParameterApply_log (f : String → String → Bool)
    (params log : ParameterList) :
    ParameterApply (fun lg n v => (f n v, lg ++ [(n, v)])) log params
      = log ++ params := by
  induction params generalizing log with
  | nil => simp [ParameterApply]
  | cons e rest ih => simp [ParameterApply, ih]

/-- C5: `Object::Parameter(list)` calls `Set` exactly once per list entry, in
list order, with that entry's name and value — shown by instantiating the
object state with a call log, which afterwards is the list itself, whatever
each call's success flag was. The application ignores the success flags (the
fold uses only the state component, so unrecognized entries are silently
skipped and no aggregate error is reported), and the root `Object::Set`
always returns `false`. -/
theorem parameter_list_application (params : ParameterList) :
    (∀ (σ : Type) (set : σ → String → String → Bool × σ) (s : σ),
        ParameterApply set s params =
          params.foldl (fun st e => (set st e.1 e.2).2) s)
    ∧ (∀ f : String → String → Bool,
        ParameterApply (fun lg n v => (f n v, lg ++ [(n, v)]))
          ([] : ParameterList) params = params)
    ∧ (∀ n v : String, ObjectSet n v = false) :=
  ⟨fun _ set s => ParameterApply_foldl set s params,
   fun f => by simpa using ParameterApply_log f params [],
   fun _ _ => rfl⟩

theorem data_nil_iff (s : String) : s.data = [] ↔ s = "" := by
  cases s with
  | mk d => cases d <;> simp [String.ext_iff]

theorem InsertAll_cons_some (params : ParameterList) (e : String × String)
    (rest : ParameterList) (p : String) (c : Char) (cs : List Char)
    (hd : e.1.data = c :: cs) :
    InsertAll params (e :: rest) (some p)
      = InsertAll (Insert params (p ++ " " ++ String.mk (ctolower c :: cs)) e.2)
          rest (some p) := by
  simp [InsertAll, LowerFirst, hd, List.foldlM_cons]

theorem InsertAll_cons_empty (params : ParameterList) (e : String × String)
    (rest : ParameterList) (p : String) (hd : e.1.data = []) :
    InsertAll params (e :: rest) (some p) = none := by
  simp [InsertAll, LowerFirst, hd, List.foldlM_cons]

/-- C3: merging a source list under a prefix turns every merged key into the
prefix, a space, and the source name with its first letter lowercased (given
that every source name is non-empty); merging without a prefix applies the
same update-or-append rule to the verbatim names; and merging
`[("Radius", "3")]` into `[]` under prefix `"Inner"` yields exactly
`[("Inner radius", "3")]`. -/
theorem insert_merge_prefixed (params other : ParameterList) (p : String)
    (h : ∀ e ∈ other, e.1 ≠ "") :
    InsertAll params other (some p)
      = some (other.foldl
          (fun acc e => Insert acc (p ++ " " ++ ((LowerFirst e.1).getD "")) e.2)
          params)
    ∧ InsertAll params other none
      = some (other.foldl (fun acc e => Insert acc e.1 e.2) params)
    ∧ InsertAll [] [("Radius", "3")] (some "Inner")
      = some [("Inner radius", "3")] := by
  refine ⟨?_, rfl, by decide⟩
  revert h
  induction other generalizing params with
  | nil =>
    intro h
    simp [InsertAll]
  | cons e rest ih =>
    intro h
    have he : e.1 ≠ "" := h e (List.mem_cons_self e rest)
    obtain ⟨c, cs, hd⟩ : ∃ c cs, e.1.data = c :: cs := by
      rcases hdd : e.1.data with _ | ⟨c, cs⟩
      · exact absurd ((data_nil_iff e.1).mp hdd) he
      · exact ⟨c, cs, rfl⟩
    have hkey : (LowerFirst e.1).getD "" = String.mk (ctolower c :: cs) := by
      simp [LowerFirst, hd]
    simp only [List.foldl_cons]
    rw [hkey, InsertAll_cons_some params e rest p c cs hd]
    exact ih _ (fun x hx => h x (List.mem_cons_of_mem e hx))

/-- Concrete instantiation of the prefixed-merge specification. -/
theorem insert_merge_prefixed_witness :
    InsertAll [] [("Radius", "3")] (some "Inner")
      = some [("Inner radius", "3")] :=
  (insert_merge_prefixed [] [("Radius", "3")] "Inner" (by decide)).2.2

/-- C9: the prefixed merge reads character position 0 of every source entry's
name; embedding that access totally, the error branch is hit exactly when
some source entry's name is empty, so the merge is well defined precisely for
source lists whose names are all non-empty. -/
theorem prefixed_merge_empty_name_iff (params other : ParameterList)
    (p : String) :
    InsertAll params other (some p) = none ↔ ∃ e ∈ other, e.1 = "" := by
  induction other generalizing params with
  | nil => simp [InsertAll]
  | cons e rest ih =>
    by_cases he : e.1 = ""
    · rw [InsertAll_cons_empty params e rest p ((data_nil_iff e.1).mpr he)]
      simp [he]
    · obtain ⟨c, cs, hd⟩ : ∃ c cs, e.1.data = c :: cs := by
        rcases hdd : e.1.data with _ | ⟨c, cs⟩
        · exact absurd ((data_nil_iff e.1).mp hdd) he
        · exact ⟨c, cs, rfl⟩
      rw [InsertAll_cons_some params e rest p c cs hd, ih]
      simp [he]

/-- Concrete instantiation of the empty-name characterization. -/
theorem prefixed_merge_empty_name_iff_witness :
    InsertAll [] [("", "x")] (some "P") = none :=
  (prefixed_merge_empty_name_iff [] [("", "x")] "P").mpr
    ⟨("", "x"), List.mem_cons_self _ _, rfl⟩

/-! Properties of the `EnergyMeasure` string conversion. -/

theorem Selectable_ne_unknown (v : Nat) (h : Selectable v) : v ≠ EM_Unknown := by
  simp only [Selectable, SIM_Begin, SIM_End, PDM_Begin, PDM_End, EFT_Begin,
    EFT_End, IFT_Begin, IFT_End, CM_Begin, CM_End, EM_Unknown] at h ⊢
  omega

theorem SimAlias_cases (s : String) (v : Nat) :
    SimAlias s v = v ∨ Selectable (SimAlias s v) := by
  unfold SimAlias
  repeat' split
  all_goals first
    | exact Or.inl rfl
    | exact Or.inr (by decide)

theorem PdmAlias_cases (s : String) (v : Nat) :
    PdmAlias s v = v ∨ Selectable (PdmAlias s v) := by
  unfold PdmAlias
  repeat' split
  all_goals first
    | exact Or.inl rfl
    | exact Or.inr (by decide)

theorem EftAlias_cases (s : String) (v : Nat) :
    EftAlias s v = v ∨ Selectable (EftAlias s v) := by
  unfold EftAlias
  repeat' split
  all_goals first
    | exact Or.inl rfl
    | exact Or.inr (by decide)

theorem IftAlias_cases (s : String) (v : Nat) :
    IftAlias s v = v ∨ Selectable (IftAlias s v) := by
  unfold IftAlias
  repeat' split
  all_goals first
    | exact Or.inl rfl
    | exact Or.inr (by decide)

theorem CmAlias_cases (s : String) (v : Nat) :
    CmAlias s v = v ∨ Selectable (CmAlias s v) := by
  unfold CmAlias
  repeat' split
  all_goals first
    | exact Or.inl rfl
    | exact Or.inr (by decide)

theorem SimAlias_id (s : String) (v : Nat) (h : v ≠ EM_Unknown) :
    SimAlias s v = v := by
  unfold SimAlias
  rw [if_neg h]

theorem PdmAlias_id (s : String) (v : Nat) (h : v ≠ EM_Unknown) :
    PdmAlias s v = v := by
  unfold PdmAlias
  rw [if_neg h]

theorem EftAlias_id (s : String) (v : Nat) (h : v ≠ EM_Unknown) :
    EftAlias s v = v := by
  unfold EftAlias
  rw [if_neg h]

theorem IftAlias_id (s : String) (v : Nat) (h : v ≠ EM_Unknown) :
    IftAlias s v = v := by
  unfold IftAlias
  rw [if_neg h]

theorem CmAlias_id (s : String) (v : Nat) (h : v ≠ EM_Unknown) :
    CmAlias s v = v := by
  unfold CmAlias
  rw [if_neg h]

theorem alias_cascade_cases (s : String) :
    CmAlias s (IftAlias s (EftAlias s (PdmAlias s (SimAlias s EM_Unknown))))
        = EM_Unknown
    ∨ Selectable
        (CmAlias s (IftAlias s (EftAlias s (PdmAlias s (SimAlias s EM_Unknown))))) := by
  rcases SimAlias_cases s EM_Unknown with h1 | h1
  · rw [h1]
    rcases PdmAlias_cases s EM_Unknown with h2 | h2
    · rw [h2]
      rcases EftAlias_cases s EM_Unknown with h3 | h3
      · rw [h3]
        rcases IftAlias_cases s EM_Unknown with h4 | h4
        · rw [h4]
          exact CmAlias_cases s EM_Unknown
        · rw [CmAlias_id s _ (Selectable_ne_unknown _ h4)]
          exact Or.inr h4
      · rw [IftAlias_id s _ (Selectable_ne_unknown _ h3),
          CmAlias_id s _ (Selectable_ne_unknown _ h3)]
        exact Or.inr h3
    · rw [EftAlias_id s _ (Selectable_ne_unknown _ h2),
        IftAlias_id s _ (Selectable_ne_unknown _ h2),
        CmAlias_id s _ (Selectable_ne_unknown _ h2)]
      exact Or.inr h2
  · rw [PdmAlias_id s _ (Selectable_ne_unknown _ h1),
      EftAlias_id s _ (Selectable_ne_unknown _ h1),
      IftAlias_id s _ (Selectable_ne_unknown _ h1),
      CmAlias_id s _ (Selectable_ne_unknown _ h1)]
    exact Or.inr h1

theorem scan_spec (s : String) (n : Nat) :
    ScanDefaultNames s n = 0
    ∨ (0 < ScanDefaultNames s n ∧ ScanDefaultNames s n ≤ n
        ∧ ToString (ScanDefaultNames s n) = s) := by
  induction n with
  | zero => exact Or.inl rfl
  | succ n ih =>
    by_cases h : ToString (n + 1) = s
    · right
      simp only [ScanDefaultNames, if_pos h]
      exact ⟨Nat.succ_pos n, Nat.le_refl _, h⟩
    · have hstep : ScanDefaultNames s (n + 1) = ScanDefaultNames s n := by
        simp only [ScanDefaultNames, if_neg h]
      rw [hstep]
      rcases ih with h0 | ⟨h1, h2, h3⟩
      · exact Or.inl h0
      · exact Or.inr ⟨h1, Nat.le_succ_of_le h2, h3⟩

theorem not_selectable_to_unknown :
    ∀ r, r ≤ 47 → ¬ Selectable r → ToString r = "Unknown" := by decide

theorem fromstring_fst_eq (s : String) :
    (FromString s).1 =
      (if CmAlias s (IftAlias s (EftAlias s (PdmAlias s (SimAlias s EM_Unknown))))
          = EM_Unknown
       then ScanDefaultNames s (EM_Last - 1)
       else CmAlias s (IftAlias s (EftAlias s (PdmAlias s (SimAlias s EM_Unknown))))) :=
  rfl

theorem fromstring_snd_eq (s : String) :
    (FromString s).2 = ((FromString s).1 != EM_Unknown) := rfl

/-- C1: every selectable energy measure round-trips: `FromString` applied to
the value's canonical name returns the value itself with success flag `true`;
moreover no two distinct selectable values share a canonical string. Checked
exhaustively over the enumeration. -/
theorem tostring_fromstring_roundtrip :
    ∀ v, v < EM_Last → Selectable v →
      FromString (ToString v) = (v, true)
      ∧ ∀ w, w < EM_Last → Selectable w → ToString w = ToString v → w = v := by
  decide

/-- Concrete instantiation of the round-trip property. -/
theorem tostring_fromstring_roundtrip_witness :
    FromString (ToString EM_JE) = (EM_JE, true) :=
  (tostring_fromstring_roundtrip EM_JE (by decide) (by decide)).1

/-- Counterexample for C2: the fallback scan starts at `EM_Last - 1`, which is
the category sentinel `CM_End` and not the highest-valued selectable constant;
since every sentinel renders as `"Unknown"`, the input `"Unknown"` makes
`FromString` report success with the non-selectable sentinel `CM_End`. -/
theorem fromstring_sentinel_cex :
    FromString "Unknown" = (CM_End, true) ∧ ¬ Selectable CM_End
    ∧ EM_Last - 1 = CM_End := by decide

/-- C2 (amended): the fallback phase is a reverse scan from `EM_Last - 1`
comparing `ToString` renderings; whenever `FromString` reports success the
value is never `EM_Unknown` and is a selectable value — except for the one
input `"Unknown"`, where the result is the sentinel `CM_End`. -/
theorem fromstring_success_classification (s : String)
    (h : (FromString s).2 = true) :
    (FromString s).1 ≠ EM_Unknown
    ∧ (Selectable (FromString s).1
       ∨ (s = "Unknown" ∧ (FromString s).1 = CM_End)) := by
  have hne : (FromString s).1 ≠ EM_Unknown := by
    rw [fromstring_snd_eq] at h
    exact bne_iff_ne.mp h
  refine ⟨hne, ?_⟩
  rw [fromstring_fst_eq] at hne ⊢
  rcases alias_cascade_cases s with hA | hA
  · rw [if_pos hA] at hne ⊢
    rcases scan_spec s (EM_Last - 1) with h0 | ⟨_, hle, heq⟩
    · exact absurd h0 hne
    · by_cases hsel : Selectable (ScanDefaultNames s (EM_Last - 1))
      · exact Or.inl hsel
      · have hunk : ToString (ScanDefaultNames s (EM_Last - 1)) = "Unknown" :=
          not_selectable_to_unknown _ hle hsel
        have hs : s = "Unknown" := by rw [← heq, hunk]
        refine Or.inr ⟨hs, ?_⟩
        rw [hs]
        decide
  · have hA0 := Selectable_ne_unknown _ hA
    rw [if_neg hA0] at hne ⊢
    exact Or.inl hA

/-- Concrete instantiation of the success classification. -/
theorem fromstring_success_classification_witness :
    (FromString "JE").1 ≠ EM_Unknown
    ∧ (Selectable (FromString "JE").1
       ∨ ("JE" = "Unknown" ∧ (FromString "JE").1 = CM_End)) :=
  fromstring_success_classification "JE" (by decide)

/-- C6: alias resolution is exact-string and consulted before the canonical
scan: `"NCC"` and `"LCC"` resolve to the same value as `FromString` applied
to the canonical name of the local/normalized cross-correlation measure, and
`"Landmark error"` and `"Fiducial Registration Error"` both resolve to the
fiducial registration error measure, all with success flag `true`. -/
theorem alias_resolution :
    FromString "NCC" = (EM_LNCC, true) ∧ FromString "LCC" = (EM_LNCC, true)
    ∧ FromString (ToString EM_LNCC) = (EM_LNCC, true)
    ∧ FromString "Landmark error" = (EM_FRE, true)
    ∧ FromString "Fiducial Registration Error" = (EM_FRE, true) := by decide

end mirtk
